import Mathlib

/-!
Shallow embedding of src/Preprocessing.py: a small tabular-data cleaning
pipeline built on pandas, with two dimensionality-reduction wrappers.

A loaded dataframe is modelled as an explicit row count (the pandas index
length) together with a list of named, dtype-tagged columns.  Cell values
are exact fractions (standing for the Python floats), strings, or the
missing sentinel NaN.  External library routines (pandas read_csv,
Series.str.replace, fillna, get_dummies, sklearn PCA and TSNE) are
modelled by their documented behaviour on the fragments the pipeline
exercises; each such definition carries a comment stating the modelling
choices.
-/

namespace Preprocessing

/-- Exact rational value standing for a Python number.  Values are always
built through the smart constructors below, which keep the fraction
normalized (positive denominator, coprime), so that structural equality
coincides with value equality. -/
structure Frac where
  n : Int
  d : Int
deriving DecidableEq, Repr

/-- Normalizing constructor for Frac: sign moved to the numerator, both
components divided by their gcd.  A zero denominator never arises in the
pipeline; it is mapped to 0 to stay total. -/
def Frac.mk' (a b : Int) : Frac :=
  if b = 0 then ⟨0, 1⟩
  else
    let s : Int := if b < 0 then -1 else 1
    let a1 := s * a
    let b1 := s * b
    let g : Int := (Int.gcd a1 b1 : Nat)
    if g = 0 then ⟨0, 1⟩ else ⟨a1 / g, b1 / g⟩

/-- Embed an integer. -/
def Frac.ofInt (a : Int) : Frac := ⟨a, 1⟩

/-- Addition of fractions. -/
def Frac.add (x y : Frac) : Frac := Frac.mk' (x.n * y.d + y.n * x.d) (x.d * y.d)

/-- Subtraction of fractions. -/
def Frac.sub (x y : Frac) : Frac := Frac.mk' (x.n * y.d - y.n * x.d) (x.d * y.d)

/-- Division of fractions. -/
def Frac.div (x y : Frac) : Frac := Frac.mk' (x.n * y.d) (x.d * y.n)

/-- Comparison, valid because constructed denominators are positive. -/
def Frac.le (x y : Frac) : Bool := decide (x.n * y.d ≤ y.n * x.d)

/-- Strict comparison. -/
def Frac.lt (x y : Frac) : Bool := decide (x.n * y.d < y.n * x.d)

/-- Floor of a fraction, via flooring integer division. -/
def Frac.floor (x : Frac) : Int := Int.fdiv x.n x.d

/-- Sum of a list of fractions, as the Python sum underlying Series.mean. -/
def fracSum (l : List Frac) : Frac := l.foldl Frac.add (Frac.ofInt 0)

/-- Translation of the Python builtin round on a number: round half to
even, as used for the imputation value round(mean). -/
def pyRound (q : Frac) : Int :=
  let fl : Int := q.floor
  let fr : Frac := q.sub (Frac.ofInt fl)
  if fr.lt (Frac.mk' 1 2) then fl
  else if (Frac.mk' 1 2).lt fr then fl + 1
  else if fl % 2 = 0 then fl else fl + 1

/-- Value stored in one cell of a dataframe: the missing sentinel (NaN),
a numeric value, or a string. -/
inductive Cell where
  | na : Cell
  | num (q : Frac) : Cell
  | str (s : String) : Cell
deriving DecidableEq, Repr

/-- The pandas dtype of a column as far as the pipeline observes it:
float64, int64, object, or the integer dtype of get_dummies indicator
columns. -/
inductive ColType where
  | cfloat : ColType
  | cint : ColType
  | cobj : ColType
  | cdummy : ColType
deriving DecidableEq, Repr

/-- One named dataframe column with its dtype tag and cell values. -/
structure Column where
  name : String
  ctype : ColType
  data : List Cell
deriving DecidableEq, Repr

/-- A dataframe: the length of the row index together with the columns.
Every column of a well-formed frame has exactly nrow cells. -/
structure DF where
  nrow : Nat
  cols : List Column
deriving DecidableEq, Repr

/-- Well-formedness: each column has as many cells as the frame has rows. -/
def DF.WF (df : DF) : Prop := ∀ c ∈ df.cols, c.data.length = df.nrow

/-- Whitespace characters stripped by the Python int constructor. -/
def isPyWs (ch : Char) : Bool :=
  ch = ' ' || ch = '\t' || ch = '\n' || ch = '\r' || ch = '\x0b' || ch = '\x0c'

/-- Digit run continuation for the Python int constructor: an underscore
must be followed by a digit, every other character must be a digit. -/
def pyDigitsTail : List Char → Bool
  | [] => true
  | ch :: rest =>
    if ch = '_' then
      match rest with
      | [] => false
      | ch2 :: rest2 => ch2.isDigit && pyDigitsTail rest2
    else ch.isDigit && pyDigitsTail rest

/-- Digit run for the Python int constructor: nonempty, starts with a
digit, underscores only between digits. -/
def pyDigits : List Char → Bool
  | [] => false
  | ch :: rest => ch.isDigit && pyDigitsTail rest

/-- Sign handling of the Python int constructor: one optional leading plus
or minus, then a digit run. -/
def pyIntCore (l : List Char) : Bool :=
  match l with
  | [] => false
  | ch :: rest => if ch = '+' || ch = '-' then pyDigits rest else pyDigits (ch :: rest)

/-- Python int(s) succeeds: after stripping surrounding whitespace and an
optional sign, the remainder is a valid digit run. -/
def pyIntOk (s : String) : Bool :=
  pyIntCore (((s.toList.dropWhile isPyWs).reverse.dropWhile isPyWs).reverse)

/-- Translation of check_header: scan the column labels, and as soon as one
parses as a Python integer conclude the frame has no genuine header.  The
source counts successes and breaks at the first one; the function returns
False exactly when some label parses. -/
def check_header (df : DF) : Bool :=
  if df.cols.any (fun c => pyIntOk c.name) then false else true

/-- Numeric value of a run of decimal digits. -/
def digitsVal (l : List Char) : Nat :=
  l.foldl (fun a ch => a * 10 + (ch.toNat - (48 : Nat))) 0

/-- Integer token of the pandas CSV tokenizer: optional sign then a
nonempty digit run (no underscores, no surrounding whitespace). -/
def csvInt? (s : String) : Option Int :=
  let core : List Char → Option Int := fun l =>
    if !l.isEmpty && l.all Char.isDigit then some (digitsVal l : Int) else none
  match s.toList with
  | '-' :: rest => (core rest).map (fun v => -v)
  | '+' :: rest => core rest
  | rest => core rest

/-- Floating token of the pandas CSV tokenizer: optional sign, digit run,
optional point and fractional digit run, at least one digit overall.
Scientific notation is not modelled; such cells fall back to the object
column case. -/
def csvFloat? (s : String) : Option Frac :=
  let core : List Char → Option Frac := fun l =>
    let ip := l.takeWhile (fun ch => ch ≠ '.')
    let rest := l.dropWhile (fun ch => ch ≠ '.')
    match rest with
    | [] =>
      if !ip.isEmpty && ip.all Char.isDigit then some (Frac.ofInt (digitsVal ip : Int))
      else none
    | _ :: fp =>
      if fp.any (fun ch => ch = '.') then none
      else if (!ip.isEmpty || !fp.isEmpty) && ip.all Char.isDigit && fp.all Char.isDigit then
        some (Frac.mk' ((digitsVal ip : Int) * ((10 : Int) ^ fp.length) + (digitsVal fp : Int))
          ((10 : Int) ^ fp.length))
      else none
  match s.toList with
  | '-' :: rest => (core rest).map (fun q => Frac.mk' (-q.n) q.d)
  | '+' :: rest => core rest
  | rest => core rest

/-- Default missing-value tokens of pandas read_csv, kept by the source
call because keep_default_na is left at True; the user-supplied tokens are
added to these. -/
def defaultNA : List String :=
  ["", "NaN", "nan", "NA", "N/A", "null", "NULL", "None", "n/a", "<NA>"]

/-- A raw cell counts as missing when it is a user token or a default one. -/
def isNAToken (na_values : List String) (s : String) : Bool :=
  na_values.contains s || defaultNA.contains s

/-- Modelled from the documented pandas read_csv dtype inference for one
column: all entries integer tokens and none missing gives int64; otherwise
all non-missing entries numeric tokens gives float64 (in particular an
all-missing column is float64); otherwise the column keeps its strings as
an object column.  An empty column is object. -/
def mkColumn (lab : String) (raws : List String) (na_values : List String) : Column :=
  let nonNA := raws.filter (fun s => !isNAToken na_values s)
  if !raws.isEmpty && nonNA.length = raws.length
      && raws.all (fun s => (csvInt? s).isSome) then
    ⟨lab, .cint, raws.map (fun s => Cell.num (Frac.ofInt ((csvInt? s).getD 0)))⟩
  else if !raws.isEmpty && nonNA.all (fun s => (csvFloat? s).isSome) then
    ⟨lab, .cfloat, raws.map (fun s =>
      if isNAToken na_values s then Cell.na else Cell.num ((csvFloat? s).getD (Frac.ofInt 0)))⟩
  else
    ⟨lab, .cobj, raws.map (fun s => if isNAToken na_values s then Cell.na else Cell.str s)⟩

/-- Build the columns of a loaded frame: one column per label of the first
row, taking the j-th field of every body row (a missing trailing field
reads as the empty string, hence as NaN). -/
def loadCols (labels : List String) (j : Nat) (body : List (List String))
    (na_values : List String) : List Column :=
  match labels with
  | [] => []
  | lab :: rest =>
    mkColumn lab (body.map (fun r => r.getD j (""))) na_values
      :: loadCols rest (j + 1) body na_values

/-- Modelled from the documented pandas read_csv with default header=0:
the first row of the file is consumed as the column labels and the
remaining rows become the body; na_values adds the user tokens to the
default missing tokens. -/
def read_csv (file : List (List String)) (na_values : List String) : DF :=
  match file with
  | [] => ⟨0, []⟩
  | labels :: body => ⟨body.length, loadCols labels 0 body na_values⟩

/-- Assignment df.columns = header: pandas raises a length-mismatch
ValueError unless the list has exactly one name per column; otherwise the
names are replaced positionally. -/
def setColumns (df : DF) (header : List String) : Except String DF :=
  if header.length = df.cols.length then
    .ok ⟨df.nrow, (df.cols.zip header).map (fun p => { p.1 with name := p.2 })⟩
  else .error ("ValueError: Length mismatch")

/-- One df.drop(f, axis=1): pandas raises a KeyError when no column has
the label, and removes every column with the label otherwise. -/
def dropCol (df : DF) (f : String) : Except String DF :=
  if df.cols.any (fun c => c.name == f) then
    .ok ⟨df.nrow, df.cols.filter (fun c => c.name != f)⟩
  else .error ("KeyError: " ++ f)

/-- The drop loop over irrelevant_features, propagating the first failure. -/
def dropAll (df : DF) (fs : List String) : Except String DF :=
  match fs with
  | [] => .ok df
  | f :: rest =>
    match dropCol df f with
    | .error e => .error e
    | .ok df1 => dropAll df1 rest

/-- Remove the occurrences of a pattern from a character list, scanning
left to right and restarting after each removed occurrence, with explicit
fuel so that the definition is structural.  An empty pattern removes
nothing, as in the Python str.replace with an empty replacement. -/
def removeOcc (pat : List Char) : Nat → List Char → List Char
  | _, [] => []
  | 0, s => s
  | Nat.succ fuel, ch :: rest =>
    if !pat.isEmpty && pat.isPrefixOf (ch :: rest) then
      removeOcc pat fuel (List.drop pat.length (ch :: rest))
    else ch :: removeOcc pat fuel rest

/-- Modelled from pandas Series.str.replace with replacement the empty
string and regex=False (the default of pandas 2): literal, non-overlapping
left-to-right removal of every occurrence of the pattern. -/
def replaceStr (s pat : String) : String :=
  ⟨removeOcc pat.toList s.toList.length s.toList⟩

/-- Series.str.replace acts on the string cells and leaves NaN untouched. -/
def stripCell (c : String) (x : Cell) : Cell :=
  match x with
  | .str s => .str (replaceStr s c)
  | other => other

/-- Inner loop of the strip step: remove one character string from every
object-dtype column.  The source filters the object columns once before
the loop; since replacement never changes a dtype, filtering inside the
loop is equivalent. -/
def stripChar (df : DF) (c : String) : DF :=
  ⟨df.nrow, df.cols.map (fun col =>
    if col.ctype == ColType.cobj then { col with data := col.data.map (stripCell c) }
    else col)⟩

/-- The strip step: outer loop over the chars argument. -/
def stripAll (df : DF) (chars : List String) : DF :=
  chars.foldl stripChar df

/-- Lexicographic comparison of character lists by code point, as in the
Python string order used by the pandas sorts. -/
def charListLe : List Char → List Char → Bool
  | [], _ => true
  | _ :: _, [] => false
  | a :: as, b :: bs => if a = b then charListLe as bs else decide (a < b)

/-- Order on cells used for the sorted outputs of pandas mode and
get_dummies.  Within one column the values are homogeneous (all numbers or
all strings); across kinds an arbitrary fixed order keeps the function
total. -/
def cellLe (a b : Cell) : Bool :=
  match a, b with
  | .na, _ => true
  | _, .na => false
  | .num p, .num q => p.le q
  | .num _, .str _ => true
  | .str _, .num _ => false
  | .str s, .str t => charListLe s.toList t.toList

/-- Insert a cell into a sorted list. -/
def insertSorted (v : Cell) : List Cell → List Cell
  | [] => [v]
  | w :: ws => if cellLe v w then v :: w :: ws else w :: insertSorted v ws

/-- Sort a list of cells ascending. -/
def sortCells (l : List Cell) : List Cell := l.foldr insertSorted []

/-- Mean of a column as computed by Series.mean: the missing entries are
skipped, and an all-missing (or empty) column yields NaN, reported here as
none. -/
def colMean (data : List Cell) : Option Frac :=
  let vals := data.filterMap (fun x => match x with | .num q => some q | _ => none)
  if vals.isEmpty then none
  else some ((fracSum vals).div (Frac.ofInt (vals.length : Int)))

/-- First entry of Series.mode: the smallest among the non-missing values
of maximal multiplicity (pandas returns the modes sorted).  none models
the KeyError of indexing the empty mode of an all-missing column. -/
def colMode (data : List Cell) : Option Cell :=
  let vals := data.filter (fun x => x != Cell.na)
  match sortCells vals.dedup with
  | [] => none
  | v :: vs =>
    some ((v :: vs).foldl (fun best w =>
      if vals.count w > vals.count best then w else best) v)

/-- One iteration of the imputation loop: a float64 column is filled with
round(mean) and any other column with mode()[0].  The error cases model
the ValueError of round(NaN) and the KeyError of mode()[0] on an empty
mode. -/
def fillColumn (col : Column) : Except String Column :=
  if col.ctype == ColType.cfloat then
    match colMean col.data with
    | none => .error ("ValueError: cannot convert float NaN to integer")
    | some m =>
      let r : Frac := Frac.ofInt (pyRound m)
      .ok { col with data := col.data.map (fun x => if x == Cell.na then Cell.num r else x) }
  else
    match colMode col.data with
    | none => .error ("KeyError: 0")
    | some m =>
      .ok { col with data := col.data.map (fun x => if x == Cell.na then m else x) }

/-- The imputation loop over the stored column names; the columns are
independent, so the loop is a traversal propagating the first exception. -/
def fillCols : List Column → Except String (List Column)
  | [] => .ok []
  | c :: cs =>
    match fillColumn c with
    | .error e => .error e
    | .ok c' =>
      match fillCols cs with
      | .error e => .error e
      | .ok cs' => .ok (c' :: cs')

/-- The imputation step on a frame. -/
def fillAll (df : DF) : Except String DF :=
  match fillCols df.cols with
  | .error e => .error e
  | .ok cs => .ok ⟨df.nrow, cs⟩

/-- Name given by get_dummies to the indicator of one category value:
prefix, separator, printed value.  Python prints a whole float with a
trailing .0; non-integral numeric categories are printed as fractions,
a harmless deviation since the pipeline claims only exercise string and
integer categories. -/
def dummyName (pfx : String) (ct : ColType) (v : Cell) : String :=
  match v with
  | .str s => pfx ++ ("_") ++ s
  | .num q =>
    if ct == ColType.cfloat then pfx ++ ("_") ++ toString q.n ++ (".0")
    else pfx ++ ("_") ++ toString q.n
  | .na => pfx ++ ("_") ++ ("nan")

/-- The sorted distinct non-missing values of a column, the categories of
get_dummies. -/
def distinctVals (col : Column) : List Cell :=
  sortCells (col.data.filter (fun x => x != Cell.na)).dedup

/-- Modelled from the documented pandas get_dummies with prefix=str(f):
one indicator column per distinct non-missing value, in sorted value
order, holding 1 where the cell equals the value and 0 elsewhere (also on
missing cells, since dummy_na defaults to False). -/
def get_dummies (col : Column) : List Column :=
  (distinctVals col).map (fun v =>
    ⟨dummyName col.name col.ctype v, ColType.cdummy,
     col.data.map (fun x => if x == v then Cell.num (Frac.ofInt 1) else Cell.num (Frac.ofInt 0))⟩)

/-- One iteration of the encoding loop: look the column up (KeyError when
absent), build its dummies, concatenate them on the right, drop every
column labelled f, then drop every column labelled like the first dummy;
an empty dummy list makes dummies.columns[0] an IndexError. -/
def encodeOne (df : DF) (f : String) : Except String DF :=
  match df.cols.find? (fun c => c.name == f) with
  | none => .error ("KeyError: " ++ f)
  | some col =>
    match get_dummies col with
    | [] => .error ("IndexError: index 0 is out of bounds")
    | d0 :: ds =>
      let afterConcat := df.cols ++ d0 :: ds
      let afterDropF := afterConcat.filter (fun c => c.name != f)
      .ok ⟨df.nrow, afterDropF.filter (fun c => c.name != d0.name)⟩

/-- The encoding loop over categorical_features. -/
def encodeAll (df : DF) (fs : List String) : Except String DF :=
  match fs with
  | [] => .ok df
  | f :: rest =>
    match encodeOne df f with
    | .error e => .error e
    | .ok df1 => encodeAll df1 rest

/-- to_numpy of a frame: one list per index entry, reading the i-th cell
of every column. -/
def DF.toMatrix (df : DF) : List (List Cell) :=
  (List.range df.nrow).map (fun i => df.cols.map (fun c => c.data.getD i Cell.na))

/-- Result of preprocessing: the cleaned triple, the error string returned
as a value on an undetermined header, or a raised exception. -/
inductive PResult where
  | ok (data : List (List Cell)) (label : List Cell) (names : List String) : PResult
  | errMsg (s : String) : PResult
  | exn (s : String) : PResult
deriving DecidableEq, Repr

/-- The pipeline after the header has been established: drop the
irrelevant columns, store the names, strip the characters, impute, encode,
store the new names, and split the last column off as the label.  Each
pandas failure propagates as an exception. -/
def pipelineRest (df0 : DF) (irrelevant_features chars categorical_features : List String) :
    PResult :=
  match dropAll df0 irrelevant_features with
  | .error e => .exn e
  | .ok df1 =>
    let df2 := stripAll df1 chars
    match fillAll df2 with
    | .error e => .exn e
    | .ok df3 =>
      match encodeAll df3 categorical_features with
      | .error e => .exn e
      | .ok df4 =>
        let names2 := df4.cols.map (fun c => c.name)
        match df4.cols.getLast? with
        | none => .exn ("IndexError: index -1 is out of bounds")
        | some lastCol =>
          .ok (DF.toMatrix ⟨df4.nrow, df4.cols.filter (fun c => c.name != lastCol.name)⟩)
            lastCol.data names2

/-- Translation of preprocessing: load the file, then either keep the
detected header, or assign the supplied one, or return the documented
error string; then run the rest of the pipeline. -/
def preprocessing (f : List (List String)) (missing_values : List String)
    (irrelevant_features : List String) (chars : List String)
    (categorical_features : List String) (header : List String) : PResult :=
  let df := read_csv f missing_values
  if check_header df then
    pipelineRest df irrelevant_features chars categorical_features
  else if header.length ≠ 0 then
    match setColumns df header with
    | .error e => .exn e
    | .ok df2 => pipelineRest df2 irrelevant_features chars categorical_features
  else
    .errMsg ("Error: the dataset has no header, please enter the columns names")

/-- The list returned by preprocessing, as consumed by the reducers. -/
structure DataList where
  data : List (List Cell)
  label : List Cell
  names : List String
deriving DecidableEq, Repr

/-- A reduced triple: projected matrix, untouched labels, new names. -/
structure Reduced where
  data : List (List Frac)
  label : List Cell
  names : List String
deriving DecidableEq, Repr

/-- Numeric reading of a cell used by the modelled projections. -/
def cellToFrac (x : Cell) : Frac :=
  match x with
  | .num q => q
  | _ => Frac.ofInt 0

/-- Modelled from the spec: the sklearn PCA fit_transform, whose
variance-maximizing coefficients are external to this repository, is
modelled as a fixed linear projection honouring the documented contract of
one output row per input row with n coordinates each; here the projection
onto the first n coordinates. -/
def fitTransformPCA (X : List (List Cell)) (n : Nat) : List (List Frac) :=
  X.map (fun row => (List.range n).map (fun j => (row.map cellToFrac).getD j (Frac.ofInt 0)))

/-- Modelled from the spec: the sklearn TSNE fit_transform is stochastic
and external to this repository; it is modelled as a fixed map honouring
the same shape contract of one output row per input row with n
coordinates each. -/
def fitTransformTSNE (X : List (List Cell)) (n : Nat) : List (List Frac) :=
  X.map (fun row => (List.range n).map (fun j =>
    (fracSum (row.map cellToFrac)).div (Frac.ofInt (Int.ofNat j + 1))))

/-- Translation of pca: transform the data, keep the label, synthesize the
names feature_1 .. feature_n. -/
def pca (datalist : DataList) (n : Nat) : Reduced :=
  ⟨fitTransformPCA datalist.data n, datalist.label,
   (List.range' 1 n).map (fun i => ("feature_") ++ toString i)⟩

/-- Translation of tsne: same wrapper around the other transform. -/
def tsne (datalist : DataList) (n : Nat) : Reduced :=
  ⟨fitTransformTSNE datalist.data n, datalist.label,
   (List.range' 1 n).map (fun i => ("feature_") ++ toString i)⟩

theorem insertSorted_length (v : Cell) (l : List Cell) :
    (insertSorted v l).length = l.length + 1 := by
  induction l with
  | nil => rfl
  | cons w ws ih =>
    simp only [insertSorted]
    split
    · simp
    · simp [ih]

theorem sortCells_length (l : List Cell) : (sortCells l).length = l.length := by
  induction l with
  | nil => rfl
  | cons x xs ih =>
    show (insertSorted x (sortCells xs)).length = xs.length + 1
    rw [insertSorted_length, ih]

theorem mem_insertSorted {x v : Cell} {l : List Cell} :
    x ∈ insertSorted v l ↔ x = v ∨ x ∈ l := by
  induction l with
  | nil => simp [insertSorted]
  | cons w ws ih =>
    simp only [insertSorted]
    split
    · simp [List.mem_cons]
    · simp only [List.mem_cons, ih]
      tauto

theorem mem_sortCells {x : Cell} {l : List Cell} : x ∈ sortCells l ↔ x ∈ l := by
  induction l with
  | nil => exact Iff.rfl
  | cons y ys ih =>
    show x ∈ insertSorted y (sortCells ys) ↔ _
    rw [mem_insertSorted, ih]
    simp [List.mem_cons]

theorem foldl_pick_mem {α : Type} (f : α → α → α) (hf : ∀ a b, f a b = a ∨ f a b = b)
    (l : List α) (v : α) : l.foldl f v ∈ v :: l := by
  induction l generalizing v with
  | nil => simp
  | cons w ws ih =>
    simp only [List.foldl_cons]
    rcases List.mem_cons.mp (ih (f v w)) with h1 | h1
    · rcases hf v w with h2 | h2 <;> rw [h1, h2] <;> simp
    · simp [h1]

theorem colMode_mem {data : List Cell} {m : Cell} (h : colMode data = some m) :
    m ∈ data ∧ m ≠ Cell.na := by
  unfold colMode at h
  dsimp only at h
  split at h
  · exact absurd h (by simp)
  next v vs hs =>
    have hm : m ∈ v :: vs := by
      have hp := foldl_pick_mem
        (fun best w =>
          if List.count w (List.filter (fun x => x != Cell.na) data) >
              List.count best (List.filter (fun x => x != Cell.na) data) then w else best)
        (fun a b => by dsimp only; split <;> simp) (v :: vs) v
      simp only [Option.some.injEq] at h
      rw [h] at hp
      rcases List.mem_cons.mp hp with h1 | h1
      · exact h1 ▸ List.mem_cons_self _ _
      · exact h1
    rw [← hs] at hm
    have hd : m ∈ (data.filter (fun x => x != Cell.na)) :=
      List.mem_dedup.mp (mem_sortCells.mp hm)
    have := List.mem_filter.mp hd
    exact ⟨this.1, by simpa using this.2⟩

theorem fillColumn_ok_parts {col col' : Column} (h : fillColumn col = .ok col') :
    col'.name = col.name ∧ col'.ctype = col.ctype ∧ col'.data.length = col.data.length := by
  unfold fillColumn at h
  split at h
  · split at h
    · cases h
    · cases h; simp
  · split at h
    · cases h
    · cases h; simp

theorem fillColumn_no_na {col col' : Column} (h : fillColumn col = .ok col') :
    ∀ x ∈ col'.data, x ≠ Cell.na := by
  unfold fillColumn at h
  split at h
  · split at h
    · cases h
    · cases h
      intro x hx
      simp only [List.mem_map] at hx
      obtain ⟨y, _, hxy⟩ := hx
      by_cases hyn : y = Cell.na
      · simp [hyn] at hxy
        rw [← hxy]
        exact fun hcon => Cell.noConfusion hcon
      · have : (y == Cell.na) = false := by simpa using hyn
        rw [this] at hxy
        simp at hxy
        rw [← hxy]
        exact hyn
  · split at h
    · cases h
    next m hm =>
      cases h
      intro x hx
      simp only [List.mem_map] at hx
      obtain ⟨y, _, hxy⟩ := hx
      by_cases hyn : y = Cell.na
      · simp [hyn] at hxy
        rw [← hxy]
        exact (colMode_mem hm).2
      · have : (y == Cell.na) = false := by simpa using hyn
        rw [this] at hxy
        simp at hxy
        rw [← hxy]
        exact hyn

theorem fillCols_ok {cs cs' : List Column} (h : fillCols cs = .ok cs') :
    List.Forall₂ (fun c c' => fillColumn c = .ok c') cs cs' := by
  induction cs generalizing cs' with
  | nil =>
    unfold fillCols at h
    cases h
    constructor
  | cons c rest ih =>
    unfold fillCols at h
    split at h
    · cases h
    next c' hc =>
      split at h
      · cases h
      next rest' hrest =>
        cases h
        exact List.Forall₂.cons hc (ih hrest)

theorem forall₂_mem_right {α β : Type} {R : α → β → Prop} {l : List α} {l' : List β}
    (h : List.Forall₂ R l l') {b : β} (hb : b ∈ l') : ∃ a ∈ l, R a b := by
  induction h with
  | nil => cases hb
  | cons hR hF ih =>
    rcases List.mem_cons.mp hb with rfl | hb'
    · exact ⟨_, List.mem_cons_self _ _, hR⟩
    · obtain ⟨a, ha, hr⟩ := ih hb'
      exact ⟨a, List.mem_cons_of_mem _ ha, hr⟩

theorem dropCol_ok {df df' : DF} {f : String} (h : dropCol df f = .ok df') :
    df'.nrow = df.nrow ∧ df'.cols = df.cols.filter (fun c => c.name != f) := by
  unfold dropCol at h
  split at h
  · cases h; exact ⟨rfl, rfl⟩
  · cases h

theorem dropAll_nrow {df df' : DF} {fs : List String} (h : dropAll df fs = .ok df') :
    df'.nrow = df.nrow := by
  induction fs generalizing df with
  | nil => unfold dropAll at h; cases h; rfl
  | cons f rest ih =>
    unfold dropAll at h
    split at h
    · cases h
    next df1 h1 => exact (ih h).trans (dropCol_ok h1).1

theorem dropCol_WF {df df' : DF} {f : String} (h : dropCol df f = .ok df') (hw : df.WF) :
    df'.WF := by
  obtain ⟨hn, hc⟩ := dropCol_ok h
  intro c hcmem
  rw [hc] at hcmem
  rw [hn]
  exact hw c (List.mem_of_mem_filter hcmem)

theorem dropAll_WF {df df' : DF} {fs : List String} (h : dropAll df fs = .ok df')
    (hw : df.WF) : df'.WF := by
  induction fs generalizing df with
  | nil => unfold dropAll at h; cases h; exact hw
  | cons f rest ih =>
    unfold dropAll at h
    split at h
    · cases h
    next df1 h1 => exact ih h (dropCol_WF h1 hw)

theorem stripAll_nrow (df : DF) (chars : List String) : (stripAll df chars).nrow = df.nrow := by
  induction chars generalizing df with
  | nil => rfl
  | cons c cs ih => exact (ih (stripChar df c)).trans rfl

theorem stripChar_WF {df : DF} (c : String) (hw : df.WF) : (stripChar df c).WF := by
  intro col hcol
  simp only [stripChar, List.mem_map] at hcol
  obtain ⟨col0, h0, hEq⟩ := hcol
  have hl := hw col0 h0
  rw [← hEq]
  show _ = df.nrow
  split
  · simpa using hl
  · exact hl

theorem stripAll_WF {df : DF} (chars : List String) (hw : df.WF) : (stripAll df chars).WF := by
  induction chars generalizing df with
  | nil => exact hw
  | cons c cs ih => exact ih (stripChar_WF c hw)

theorem stripAll_cols (chars : List String) (df : DF) :
    (stripAll df chars).cols = df.cols.map (fun col =>
      if col.ctype == ColType.cobj then
        { col with data := col.data.map (fun x => chars.foldl (fun y c => stripCell c y) x) }
      else col) := by
  induction chars generalizing df with
  | nil =>
    show df.cols = _
    have h1 : ∀ col : Column,
        (if col.ctype == ColType.cobj then
          { col with data := col.data.map (fun x => List.foldl (fun y c => stripCell c y) x []) }
        else col) = col := by
      intro col
      split
      · simp
      · rfl
    rw [List.map_congr_left (fun col _ => h1 col)]
    exact (List.map_id' df.cols).symm
  | cons c cs ih =>
    show (stripAll (stripChar df c) cs).cols = _
    rw [ih]
    simp only [stripChar, List.map_map]
    refine List.map_congr_left (fun col _ => ?_)
    simp only [Function.comp]
    by_cases hct : (col.ctype == ColType.cobj) = true
    · simp only [hct, if_pos]
      simp [List.map_map, Function.comp]
    · simp only [Bool.not_eq_true] at hct
      simp [hct]

theorem setColumns_ok {df df' : DF} {hdr : List String} (h : setColumns df hdr = .ok df') :
    df'.nrow = df.nrow ∧
      df'.cols = (df.cols.zip hdr).map (fun p => { p.1 with name := p.2 }) := by
  unfold setColumns at h
  split at h
  · cases h; exact ⟨rfl, rfl⟩
  · cases h

theorem setColumns_WF {df df' : DF} {hdr : List String} (h : setColumns df hdr = .ok df')
    (hw : df.WF) : df'.WF := by
  obtain ⟨hn, hc⟩ := setColumns_ok h
  intro c hcmem
  rw [hc] at hcmem
  simp only [List.mem_map] at hcmem
  obtain ⟨p, hp, hEq⟩ := hcmem
  rw [← hEq, hn]
  exact hw p.1 (List.of_mem_zip hp).1

theorem mkColumn_data_length (lab : String) (raws na : List String) :
    (mkColumn lab raws na).data.length = raws.length := by
  unfold mkColumn
  dsimp only
  split
  · simp
  · split <;> simp

theorem loadCols_data_length (labels : List String) (j : Nat) (body : List (List String))
    (na : List String) :
    ∀ c ∈ loadCols labels j body na, c.data.length = body.length := by
  induction labels generalizing j with
  | nil => intro c hc; cases hc
  | cons lab rest ih =>
    intro c hc
    rcases List.mem_cons.mp hc with rfl | h
    · rw [mkColumn_data_length]; simp
    · exact ih (j + 1) c h

theorem read_csv_WF (file : List (List String)) (na : List String) : (read_csv file na).WF := by
  unfold read_csv
  split
  · intro c hc; cases hc
  next labels body =>
    intro c hc
    exact loadCols_data_length labels 0 body na c hc

theorem fillAll_ok {df df' : DF} (h : fillAll df = .ok df') :
    df'.nrow = df.nrow ∧
      List.Forall₂ (fun c c' => fillColumn c = .ok c') df.cols df'.cols := by
  unfold fillAll at h
  split at h
  · cases h
  next cs hcs => cases h; exact ⟨rfl, fillCols_ok hcs⟩

theorem fillAll_WF {df df' : DF} (h : fillAll df = .ok df') (hw : df.WF) : df'.WF := by
  obtain ⟨hn, hf⟩ := fillAll_ok h
  intro c' hc'
  obtain ⟨c, hc, hcc⟩ := forall₂_mem_right hf hc'
  rw [hn, (fillColumn_ok_parts hcc).2.2]
  exact hw c hc

/-- No missing sentinel anywhere in the columns of a frame. -/
def NoNA (df : DF) : Prop := ∀ c ∈ df.cols, ∀ x ∈ c.data, x ≠ Cell.na

theorem fillAll_NoNA {df df' : DF} (h : fillAll df = .ok df') : NoNA df' := by
  obtain ⟨_, hf⟩ := fillAll_ok h
  intro c' hc'
  obtain ⟨c, _, hcc⟩ := forall₂_mem_right hf hc'
  exact fillColumn_no_na hcc

theorem get_dummies_data_length (col : Column) :
    ∀ d ∈ get_dummies col, d.data.length = col.data.length := by
  intro d hd
  simp only [get_dummies, List.mem_map] at hd
  obtain ⟨v, _, hEq⟩ := hd
  rw [← hEq]
  simp

theorem get_dummies_no_na (col : Column) :
    ∀ d ∈ get_dummies col, ∀ x ∈ d.data, x ≠ Cell.na := by
  intro d hd x hx
  simp only [get_dummies, List.mem_map] at hd
  obtain ⟨v, _, hEq⟩ := hd
  rw [← hEq] at hx
  simp only [List.mem_map] at hx
  obtain ⟨y, _, hEq2⟩ := hx
  rw [← hEq2]
  split <;> exact fun hcon => Cell.noConfusion hcon

theorem encodeOne_ok_parts {df df' : DF} {f : String} (h : encodeOne df f = .ok df') :
    df'.nrow = df.nrow ∧
      ∃ col ∈ df.cols, ∃ d0 ds, get_dummies col = d0 :: ds ∧
        df'.cols = ((df.cols ++ d0 :: ds).filter (fun c => c.name != f)).filter
          (fun c => c.name != d0.name) := by
  unfold encodeOne at h
  split at h
  · cases h
  next col hcol =>
    split at h
    · cases h
    next d0 ds hd =>
      cases h
      exact ⟨rfl, col, List.mem_of_find?_eq_some hcol, d0, ds, hd, rfl⟩

theorem encodeOne_WF {df df' : DF} {f : String} (h : encodeOne df f = .ok df')
    (hw : df.WF) : df'.WF := by
  obtain ⟨hn, col, hcol, d0, ds, hd, hc⟩ := encodeOne_ok_parts h
  intro c hcmem
  rw [hc] at hcmem
  have hc1 := List.mem_of_mem_filter (List.mem_of_mem_filter hcmem)
  rw [hn]
  rcases List.mem_append.mp hc1 with h1 | h1
  · exact hw c h1
  · rw [get_dummies_data_length col c (hd ▸ h1)]
    exact hw col hcol

theorem encodeOne_NoNA {df df' : DF} {f : String} (h : encodeOne df f = .ok df')
    (hn : NoNA df) : NoNA df' := by
  obtain ⟨_, col, hcol, d0, ds, hd, hc⟩ := encodeOne_ok_parts h
  intro c hcmem
  rw [hc] at hcmem
  have hc1 := List.mem_of_mem_filter (List.mem_of_mem_filter hcmem)
  rcases List.mem_append.mp hc1 with h1 | h1
  · exact hn c h1
  · exact get_dummies_no_na col c (hd ▸ h1)

theorem encodeAll_nrow {df df' : DF} {fs : List String} (h : encodeAll df fs = .ok df') :
    df'.nrow = df.nrow := by
  induction fs generalizing df with
  | nil => unfold encodeAll at h; cases h; rfl
  | cons f rest ih =>
    unfold encodeAll at h
    split at h
    · cases h
    next df1 h1 => exact (ih h).trans (encodeOne_ok_parts h1).1

theorem encodeAll_WF {df df' : DF} {fs : List String} (h : encodeAll df fs = .ok df')
    (hw : df.WF) : df'.WF := by
  induction fs generalizing df with
  | nil => unfold encodeAll at h; cases h; exact hw
  | cons f rest ih =>
    unfold encodeAll at h
    split at h
    · cases h
    next df1 h1 => exact ih h (encodeOne_WF h1 hw)

theorem encodeAll_NoNA {df df' : DF} {fs : List String} (h : encodeAll df fs = .ok df')
    (hn : NoNA df) : NoNA df' := by
  induction fs generalizing df with
  | nil => unfold encodeAll at h; cases h; exact hn
  | cons f rest ih =>
    unfold encodeAll at h
    split at h
    · cases h
    next df1 h1 => exact ih h (encodeOne_NoNA h1 hn)

theorem toMatrix_length (df : DF) : (DF.toMatrix df).length = df.nrow := by
  simp [DF.toMatrix]

theorem toMatrix_row_length {df : DF} {row : List Cell} (h : row ∈ DF.toMatrix df) :
    row.length = df.cols.length := by
  simp only [DF.toMatrix, List.mem_map] at h
  obtain ⟨i, _, hEq⟩ := h
  rw [← hEq]
  simp

theorem toMatrix_cell_mem {df : DF} (hw : df.WF) {row : List Cell} {x : Cell}
    (hr : row ∈ DF.toMatrix df) (hx : x ∈ row) : ∃ c ∈ df.cols, x ∈ c.data := by
  simp only [DF.toMatrix, List.mem_map] at hr
  obtain ⟨i, hi, hEq⟩ := hr
  rw [← hEq] at hx
  simp only [List.mem_map] at hx
  obtain ⟨c, hc, hEq2⟩ := hx
  refine ⟨c, hc, ?_⟩
  have hlen : i < c.data.length := by
    rw [hw c hc]
    exact List.mem_range.mp hi
  rw [← hEq2, List.getD_eq_getElem c.data Cell.na hlen]
  exact List.getElem_mem hlen

theorem getLast?_mem {α : Type} {l : List α} {a : α} (h : l.getLast? = some a) : a ∈ l := by
  induction l with
  | nil => cases h
  | cons x xs ih =>
    cases hxs : xs with
    | nil =>
      rw [hxs] at h
      cases h
      exact List.mem_singleton_self x
    | cons y ys =>
      rw [hxs] at h ih
      rw [List.getLast?_cons_cons] at h
      exact List.mem_cons_of_mem x (ih h)

theorem pipelineRest_ok_struct {df0 : DF} {irr ch cat : List String}
    {d : List (List Cell)} {l : List Cell} {n : List String}
    (hw : df0.WF) (h : pipelineRest df0 irr ch cat = .ok d l n) :
    ∃ df4 lastCol,
      df4.WF ∧ NoNA df4 ∧ df4.nrow = df0.nrow ∧
      df4.cols.getLast? = some lastCol ∧
      n = df4.cols.map (fun c => c.name) ∧
      l = lastCol.data ∧
      d = DF.toMatrix ⟨df4.nrow, df4.cols.filter (fun c => c.name != lastCol.name)⟩ := by
  unfold pipelineRest at h
  dsimp only at h
  split at h
  · cases h
  next df1 hdrop =>
    split at h
    · cases h
    next df3 hfill =>
      split at h
      · cases h
      next df4 henc =>
        split at h
        · cases h
        next lastCol hlast =>
          cases h
          have hw1 : df1.WF := dropAll_WF hdrop hw
          have hw2 : (stripAll df1 ch).WF := stripAll_WF ch hw1
          have hw3 : df3.WF := fillAll_WF hfill hw2
          have hw4 : df4.WF := encodeAll_WF henc hw3
          have hn4 : df4.nrow = df0.nrow := by
            rw [encodeAll_nrow henc, (fillAll_ok hfill).1, stripAll_nrow, dropAll_nrow hdrop]
          exact ⟨df4, lastCol, hw4,
            encodeAll_NoNA henc (fillAll_NoNA hfill), hn4, hlast, rfl, rfl, rfl⟩

theorem preprocessing_ok_cases {f : List (List String)} {mv irr ch cat hdr : List String}
    {d : List (List Cell)} {l : List Cell} {n : List String}
    (h : preprocessing f mv irr ch cat hdr = .ok d l n) :
    ∃ df0 : DF, df0.WF ∧ df0.nrow = (read_csv f mv).nrow ∧
      pipelineRest df0 irr ch cat = .ok d l n := by
  unfold preprocessing at h
  dsimp only at h
  by_cases hc : check_header (read_csv f mv) = true
  · rw [if_pos hc] at h
    exact ⟨read_csv f mv, read_csv_WF f mv, rfl, h⟩
  · rw [if_neg hc] at h
    by_cases hh : hdr.length ≠ 0
    · rw [if_pos hh] at h
      split at h
      · cases h
      next df2 hset =>
        exact ⟨df2, setColumns_WF hset (read_csv_WF f mv), (setColumns_ok hset).1, h⟩
    · rw [if_neg hh] at h
      cases h

theorem preprocessing_ok_shape {f : List (List String)} {mv irr ch cat hdr : List String}
    {d : List (List Cell)} {l : List Cell} {n : List String}
    (h : preprocessing f mv irr ch cat hdr = .ok d l n) :
    d.length = (read_csv f mv).nrow ∧ l.length = (read_csv f mv).nrow ∧
      (∀ row ∈ d, ∀ x ∈ row, x ≠ Cell.na) ∧ (∀ x ∈ l, x ≠ Cell.na) := by
  obtain ⟨df0, hw0, hn0, hrest⟩ := preprocessing_ok_cases h
  obtain ⟨df4, lastCol, hw4, hna4, hn4, hlast, hnames, hl, hd⟩ :=
    pipelineRest_ok_struct hw0 hrest
  have hlmem : lastCol ∈ df4.cols := getLast?_mem hlast
  have hfw : (⟨df4.nrow, df4.cols.filter (fun c => c.name != lastCol.name)⟩ : DF).WF := by
    intro c hc
    exact hw4 c (List.mem_of_mem_filter hc)
  refine ⟨?_, ?_, ?_, ?_⟩
  · rw [hd, toMatrix_length]
    exact hn4.trans hn0
  · rw [hl, hw4 lastCol hlmem]
    exact hn4.trans hn0
  · intro row hrow x hx
    rw [hd] at hrow
    obtain ⟨c, hc, hxc⟩ := toMatrix_cell_mem hfw hrow hx
    exact hna4 c (List.mem_of_mem_filter hc) x hxc
  · intro x hx
    rw [hl] at hx
    exact hna4 lastCol hlmem x hx

theorem filter_ne_getLast_length {cols : List Column} {lastCol : Column}
    (hne : cols.getLast? = some lastCol)
    (hnd : (cols.map (fun c => c.name)).Nodup) :
    (cols.filter (fun c => c.name != lastCol.name)).length = cols.length - 1 := by
  have hcne : cols ≠ [] := by
    intro hc
    rw [hc] at hne
    cases hne
  have hlasteq : cols.getLast hcne = lastCol := by
    have := List.getLast?_eq_getLast cols hcne
    rw [this] at hne
    exact Option.some.inj hne
  have hsplit : cols.dropLast ++ [lastCol] = cols := by
    rw [← hlasteq]
    exact List.dropLast_append_getLast hcne
  have hnodrop : ∀ c ∈ cols.dropLast, c.name ≠ lastCol.name := by
    intro c hc hceq
    rw [← hsplit, List.map_append, List.nodup_append] at hnd
    exact hnd.2.2 (List.mem_map_of_mem (fun c => c.name) hc) (by simp [hceq])
  conv_lhs => rw [← hsplit]
  rw [List.filter_append]
  have h2 : List.filter (fun c => c.name != lastCol.name) [lastCol] = [] := by simp
  have h3 : List.filter (fun c => c.name != lastCol.name) cols.dropLast = cols.dropLast := by
    rw [List.filter_eq_self]
    intro c hc
    simpa using hnodrop c hc
  rw [h2, h3, List.append_nil, ← hsplit]
  simp

theorem isDigit_eq_false_of_isAlpha {ch : Char} (h : ch.isAlpha = true) :
    ch.isDigit = false := by
  simp only [Char.isAlpha, Char.isUpper, Char.isLower, Bool.or_eq_true,
    Bool.and_eq_true, decide_eq_true_eq] at h
  have h65 : 65 ≤ ch.val.toNat ∨ 97 ≤ ch.val.toNat := by
    rcases h with ⟨h1, _⟩ | ⟨h1, _⟩
    · exact Or.inl (@UInt32.le_toNat_of_le ch.val 65 (by decide) h1)
    · exact Or.inr (@UInt32.le_toNat_of_le ch.val 97 (by decide) h1)
  have hnot : ¬ (ch.val ≤ 57) := by
    intro hcon
    have := @UInt32.toNat_le_of_le ch.val 57 (by decide) hcon
    omega
  simp only [Char.isDigit]
  simp [hnot]

theorem isPyWs_eq_false_of_isAlpha {ch : Char} (h : ch.isAlpha = true) :
    isPyWs ch = false := by
  by_contra hcon
  rw [Bool.not_eq_false] at hcon
  simp only [isPyWs, Bool.or_eq_true, decide_eq_true_eq] at hcon
  rcases hcon with ((((rfl | rfl) | rfl) | rfl) | rfl) | rfl <;> exact absurd h (by decide)

theorem isPyWs_eq_false_of_isDigit {ch : Char} (h : ch.isDigit = true) :
    isPyWs ch = false := by
  by_contra hcon
  rw [Bool.not_eq_false] at hcon
  simp only [isPyWs, Bool.or_eq_true, decide_eq_true_eq] at hcon
  rcases hcon with ((((rfl | rfl) | rfl) | rfl) | rfl) | rfl <;> exact absurd h (by decide)

theorem ne_plus_of_isAlpha {ch : Char} (h : ch.isAlpha = true) : ch ≠ '+' := by
  intro hcon
  subst hcon
  exact absurd h (by decide)

theorem ne_minus_of_isAlpha {ch : Char} (h : ch.isAlpha = true) : ch ≠ '-' := by
  intro hcon
  subst hcon
  exact absurd h (by decide)

theorem ne_plus_of_isDigit {ch : Char} (h : ch.isDigit = true) : ch ≠ '+' := by
  intro hcon
  subst hcon
  exact absurd h (by decide)

theorem ne_minus_of_isDigit {ch : Char} (h : ch.isDigit = true) : ch ≠ '-' := by
  intro hcon
  subst hcon
  exact absurd h (by decide)

theorem ne_underscore_of_isDigit {ch : Char} (h : ch.isDigit = true) : ch ≠ '_' := by
  intro hcon
  subst hcon
  exact absurd h (by decide)

theorem dropWhile_eq_self_of_all {p : Char → Bool} {l : List Char}
    (h : ∀ ch ∈ l, p ch = false) : l.dropWhile p = l := by
  cases l with
  | nil => rfl
  | cons a as =>
    rw [List.dropWhile_cons, if_neg]
    simp [h a (List.mem_cons_self a as)]

theorem pyDigitsTail_of_all_digits {l : List Char} (h : ∀ ch ∈ l, ch.isDigit = true) :
    pyDigitsTail l = true := by
  induction l with
  | nil => rfl
  | cons ch rest ih =>
    unfold pyDigitsTail
    rw [if_neg (ne_underscore_of_isDigit (h ch (List.mem_cons_self ch rest)))]
    rw [h ch (List.mem_cons_self ch rest), ih (fun c hc => h c (List.mem_cons_of_mem ch hc))]
    rfl

theorem pyIntOk_eq_false_of_alpha {s : String} (h : ∀ ch ∈ s.toList, ch.isAlpha = true) :
    pyIntOk s = false := by
  unfold pyIntOk
  rw [dropWhile_eq_self_of_all (fun ch hch => isPyWs_eq_false_of_isAlpha (h ch hch))]
  rw [dropWhile_eq_self_of_all
    (fun ch hch => isPyWs_eq_false_of_isAlpha (h ch (List.mem_reverse.mp hch)))]
  rw [List.reverse_reverse]
  cases hl : s.toList with
  | nil => rfl
  | cons ch rest =>
    have hch : ch.isAlpha = true := h ch (by rw [hl]; exact List.mem_cons_self ch rest)
    simp only [pyIntCore]
    rw [if_neg]
    · show (ch.isDigit && pyDigitsTail rest) = false
      rw [isDigit_eq_false_of_isAlpha hch]
      rfl
    · simp [ne_plus_of_isAlpha hch, ne_minus_of_isAlpha hch]

theorem pyIntOk_eq_true_of_digits {s : String} (hne : s.toList ≠ [])
    (h : ∀ ch ∈ s.toList, ch.isDigit = true) : pyIntOk s = true := by
  unfold pyIntOk
  rw [dropWhile_eq_self_of_all (fun ch hch => isPyWs_eq_false_of_isDigit (h ch hch))]
  rw [dropWhile_eq_self_of_all
    (fun ch hch => isPyWs_eq_false_of_isDigit (h ch (List.mem_reverse.mp hch)))]
  rw [List.reverse_reverse]
  cases hl : s.toList with
  | nil => exact absurd hl hne
  | cons ch rest =>
    have hch : ch.isDigit = true := h ch (by rw [hl]; exact List.mem_cons_self ch rest)
    simp only [pyIntCore]
    rw [if_neg]
    · show (ch.isDigit && pyDigitsTail rest) = true
      rw [hch, pyDigitsTail_of_all_digits
        (fun c hc => h c (by rw [hl]; exact List.mem_cons_of_mem ch hc))]
      rfl
    · simp [ne_plus_of_isDigit hch, ne_minus_of_isDigit hch]

theorem loadCols_length (labels : List String) (j : Nat) (body : List (List String))
    (na : List String) : (loadCols labels j body na).length = labels.length := by
  induction labels generalizing j with
  | nil => rfl
  | cons lab rest ih => simp [loadCols, ih]

theorem mkColumn_relabel (lab1 lab2 h : String) (raws na : List String) :
    { mkColumn lab1 raws na with name := h } = { mkColumn lab2 raws na with name := h } := by
  unfold mkColumn
  dsimp only
  split
  · rfl
  · split
    · rfl
    · rfl

theorem loadCols_relabel {L1 L2 : List String} (hlen : L1.length = L2.length)
    (j : Nat) (body : List (List String)) (na : List String) (hdr : List String) :
    ((loadCols L1 j body na).zip hdr).map (fun p => { p.1 with name := p.2 }) =
    ((loadCols L2 j body na).zip hdr).map (fun p => { p.1 with name := p.2 }) := by
  induction L1 generalizing L2 j hdr with
  | nil =>
    cases L2 with
    | nil => rfl
    | cons b bs => cases hlen
  | cons a as ih =>
    cases L2 with
    | nil => cases hlen
    | cons b bs =>
      cases hdr with
      | nil => rfl
      | cons hh hs =>
        simp only [loadCols, List.zip_cons_cons, List.map_cons]
        rw [mkColumn_relabel a b hh, ih (by simpa using hlen) (j + 1) hs]

theorem setColumns_read_csv_relabel {r1 r2 : List String} {body : List (List String)}
    {mv hdr : List String} (hlen : r1.length = r2.length) :
    setColumns (read_csv (r1 :: body) mv) hdr = setColumns (read_csv (r2 :: body) mv) hdr := by
  unfold setColumns read_csv
  dsimp only
  rw [loadCols_length, loadCols_length, hlen]
  split
  · rw [loadCols_relabel hlen 0 body mv hdr]
  · rfl

theorem preprocessing_first_row_irrelevant {r1 r2 : List String} {body : List (List String)}
    {mv irr ch cat hdr : List String} (hlen : r1.length = r2.length)
    (h1 : check_header (read_csv (r1 :: body) mv) = false)
    (h2 : check_header (read_csv (r2 :: body) mv) = false)
    (hh : hdr ≠ []) :
    preprocessing (r1 :: body) mv irr ch cat hdr =
      preprocessing (r2 :: body) mv irr ch cat hdr := by
  unfold preprocessing
  dsimp only
  rw [h1, h2]
  simp only [Bool.false_eq_true, if_false]
  have hlen0 : hdr.length ≠ 0 := by
    intro hcon
    exact hh (List.length_eq_zero.mp hcon)
  rw [if_pos hlen0, if_pos hlen0, setColumns_read_csv_relabel hlen]

theorem dummyName_ne_pfx (pfx : String) (ct : ColType) (v : Cell) :
    dummyName pfx ct v ≠ pfx := by
  have h1 : ("_" : String).length = 1 := rfl
  have h2 : (".0" : String).length = 2 := rfl
  have h3 : ("nan" : String).length = 3 := rfl
  cases v with
  | str s =>
    intro hcon
    have hlen := congrArg String.length hcon
    simp only [dummyName, String.length_append, h1] at hlen
    omega
  | num q =>
    intro hcon
    have hlen := congrArg String.length hcon
    simp only [dummyName] at hlen
    split at hlen <;> simp only [String.length_append, h1, h2] at hlen <;> omega
  | na =>
    intro hcon
    have hlen := congrArg String.length hcon
    simp only [dummyName, String.length_append, h1, h3] at hlen
    omega

/-- C10: on a dataset containing an all-missing column, preprocessing
raises an exception while imputing (the ValueError of rounding the NaN
mean of the all-missing float64 column) instead of returning a cleaned
tuple or the documented header error string. -/
theorem C10_all_missing_column_raises :
    preprocessing [["a", "b"], ["1", "?"], ["2", "?"]] ["?"] [] [] [] [] =
      PResult.exn ("ValueError: cannot convert float NaN to integer") := by
  decide

/-- C2: check_header returns true on every frame whose column labels are
all-alphabetic, returns false on every frame with a purely numeric label,
and in general reports no header exactly when some label parses as a
Python integer. -/
theorem C2_header_detector :
    (∀ df : DF, (∀ c ∈ df.cols, ∀ ch ∈ c.name.toList, ch.isAlpha = true) →
      check_header df = true) ∧
    (∀ df : DF,
      (∃ c ∈ df.cols, c.name.toList ≠ [] ∧ ∀ ch ∈ c.name.toList, ch.isDigit = true) →
      check_header df = false) ∧
    (∀ df : DF, check_header df = false ↔ ∃ c ∈ df.cols, pyIntOk c.name = true) := by
  refine ⟨?_, ?_, ?_⟩
  · intro df h
    have hany : df.cols.any (fun c => pyIntOk c.name) = false := by
      rw [List.any_eq_false]
      intro c hc
      simp [pyIntOk_eq_false_of_alpha (h c hc)]
    simp [check_header, hany]
  · intro df h
    obtain ⟨c, hc, hne, hdig⟩ := h
    have hany : df.cols.any (fun c => pyIntOk c.name) = true :=
      List.any_eq_true.mpr ⟨c, hc, pyIntOk_eq_true_of_digits hne hdig⟩
    simp [check_header, hany]
  · intro df
    constructor
    · intro hfalse
      unfold check_header at hfalse
      split at hfalse
      next hany => exact List.any_eq_true.mp hany
      next => cases hfalse
    · intro h
      obtain ⟨c, hc, hok⟩ := h
      have hany : df.cols.any (fun c => pyIntOk c.name) = true :=
        List.any_eq_true.mpr ⟨c, hc, hok⟩
      simp [check_header, hany]

/-- Witness for C2: concrete frames with an alphabetic header, a numeric
label, and a numeric label via the parsing characterization. -/
theorem C2_witness :
    check_header ⟨0, [⟨"age", ColType.cint, []⟩, ⟨"cls", ColType.cobj, []⟩]⟩ = true ∧
    check_header ⟨0, [⟨"age", ColType.cint, []⟩, ⟨"42", ColType.cint, []⟩]⟩ = false ∧
    check_header ⟨0, [⟨"7", ColType.cint, []⟩]⟩ = false :=
  ⟨C2_header_detector.1 _ (by decide),
   C2_header_detector.2.1 _ ⟨⟨"42", ColType.cint, []⟩, by decide, by decide, by decide⟩,
   (C2_header_detector.2.2 _).mpr ⟨⟨"7", ColType.cint, []⟩, by decide, by decide⟩⟩

/-- C7: a successful preprocessing returns a matrix and a label vector
whose row counts both equal the row count of the loaded dataset, and the
irrelevant-column drop never changes the row count, so no row is added or
removed by the stripping, imputation, encoding or split steps. -/
theorem C7_row_preservation {f : List (List String)} {mv irr ch cat hdr : List String}
    {d : List (List Cell)} {l : List Cell} {n : List String}
    (h : preprocessing f mv irr ch cat hdr = PResult.ok d l n) :
    d.length = (read_csv f mv).nrow ∧ l.length = (read_csv f mv).nrow ∧
    ∀ df df' : DF, dropAll df irr = Except.ok df' → df'.nrow = df.nrow := by
  obtain ⟨h1, h2, _, _⟩ := preprocessing_ok_shape h
  exact ⟨h1, h2, fun df df' hd => dropAll_nrow hd⟩

/-- Witness for C7 on a concrete two-row dataset with one imputed value. -/
theorem C7_witness :
    ([[Cell.num (Frac.ofInt 25)], [Cell.num (Frac.ofInt 25)]] : List (List Cell)).length =
      (read_csv [["age", "cls"], ["25", "yes"], ["", "no"]] []).nrow ∧
    ([Cell.str "yes", Cell.str "no"] : List Cell).length =
      (read_csv [["age", "cls"], ["25", "yes"], ["", "no"]] []).nrow :=
  have h := C7_row_preservation
    (show preprocessing [["age", "cls"], ["25", "yes"], ["", "no"]] [] [] [] [] [] =
      PResult.ok [[Cell.num (Frac.ofInt 25)], [Cell.num (Frac.ofInt 25)]]
        [Cell.str "yes", Cell.str "no"] ["age", "cls"] by decide)
  ⟨h.1, h.2.1⟩

/-- C3: imputation fills every missing entry of a float64 column with the
rounded column mean and every missing entry of any other column with the
first mode, a most frequent non-missing value of the column; consequently
a successful preprocessing returns a matrix and label vector containing no
missing sentinel. -/
theorem C3_imputation_no_missing :
    (∀ col col', fillColumn col = Except.ok col' →
      (col.ctype = ColType.cfloat →
        ∃ m, colMean col.data = some m ∧
          col'.data = col.data.map (fun x =>
            if x == Cell.na then Cell.num (Frac.ofInt (pyRound m)) else x)) ∧
      (col.ctype ≠ ColType.cfloat →
        ∃ m, colMode col.data = some m ∧ m ∈ col.data ∧ m ≠ Cell.na ∧
          col'.data = col.data.map (fun x => if x == Cell.na then m else x))) ∧
    (∀ f mv irr ch cat hdr d l n, preprocessing f mv irr ch cat hdr = PResult.ok d l n →
      (∀ row ∈ d, ∀ x ∈ row, x ≠ Cell.na) ∧ ∀ x ∈ l, x ≠ Cell.na) := by
  constructor
  · intro col col' h
    constructor
    · intro hct
      unfold fillColumn at h
      rw [if_pos (by simp [hct])] at h
      split at h
      · cases h
      next m hm =>
        cases h
        exact ⟨m, hm, rfl⟩
    · intro hct
      unfold fillColumn at h
      rw [if_neg (by simp [hct])] at h
      split at h
      · cases h
      next m hm =>
        cases h
        obtain ⟨hmem, hna⟩ := colMode_mem hm
        exact ⟨m, hm, hmem, hna, rfl⟩
  · intro f mv irr ch cat hdr d l n h
    obtain ⟨_, _, h3, h4⟩ := preprocessing_ok_shape h
    exact ⟨h3, h4⟩

/-- Witness for C3: a concrete run whose missing age was imputed; the
returned tuple holds no missing sentinel. -/
theorem C3_witness :
    preprocessing [["age", "cls"], ["25", "yes"], ["", "no"]] [] [] [] [] [] =
      PResult.ok [[Cell.num (Frac.ofInt 25)], [Cell.num (Frac.ofInt 25)]]
        [Cell.str "yes", Cell.str "no"] ["age", "cls"] ∧
    ¬ (Cell.na ∈ ([Cell.num (Frac.ofInt 25)] : List Cell)) := by
  have heq : preprocessing [["age", "cls"], ["25", "yes"], ["", "no"]] [] [] [] [] [] =
      PResult.ok [[Cell.num (Frac.ofInt 25)], [Cell.num (Frac.ofInt 25)]]
        [Cell.str "yes", Cell.str "no"] ["age", "cls"] := by decide
  refine ⟨heq, fun hmem => ?_⟩
  exact (C3_imputation_no_missing.2 _ _ _ _ _ _ _ _ _ heq).1
    [Cell.num (Frac.ofInt 25)] (by simp) Cell.na hmem rfl

/-- C5 counterexample: a run in which two encoded categorical columns
produce colliding indicator names makes the final column name ambiguous;
the drop of the label column then removes two columns, so the returned
matrix rows have 0 entries although the name list has length 2, refuting
column count = names - 1. -/
theorem C5_counterexample :
    preprocessing [["a", "a_b"], ["aa", "aa"], ["b_c", "c"]] [] [] [] ["a", "a_b"] [] =
      PResult.ok [[], []] [Cell.num (Frac.ofInt 0), Cell.num (Frac.ofInt 1)]
        ["a_b_c", "a_b_c"] ∧
    ¬ (([] : List Cell).length = (["a_b_c", "a_b_c"] : List String).length - 1) := by
  constructor
  · decide
  · decide

/-- C5 (amended): every cleaned tuple satisfies rows(matrix) = len(label);
and provided the returned feature names are pairwise distinct, each matrix
row has names - 1 entries, the last name denoting the excluded label
column.  The distinctness proviso is forced by the duplicate-name
counterexample. -/
theorem C5_shape_amended {f : List (List String)} {mv irr ch cat hdr : List String}
    {d : List (List Cell)} {l : List Cell} {n : List String}
    (h : preprocessing f mv irr ch cat hdr = PResult.ok d l n) :
    d.length = l.length ∧ (n.Nodup → ∀ row ∈ d, row.length = n.length - 1) := by
  obtain ⟨df0, hw0, hn0, hrest⟩ := preprocessing_ok_cases h
  obtain ⟨df4, lastCol, hw4, hna4, hn4, hlast, hnames, hl, hd⟩ :=
    pipelineRest_ok_struct hw0 hrest
  constructor
  · rw [hd, hl, toMatrix_length]
    exact (hw4 lastCol (getLast?_mem hlast)).symm
  · intro hnd row hrow
    rw [hd] at hrow
    have hrl := toMatrix_row_length hrow
    rw [hrl]
    show (df4.cols.filter (fun c => c.name != lastCol.name)).length = n.length - 1
    rw [hnames, List.length_map]
    exact filter_ne_getLast_length hlast (by rw [hnames] at hnd; exact hnd)

/-- Witness for the amended C5 on a concrete cleaned tuple with distinct
names. -/
theorem C5_witness :
    ([[Cell.num (Frac.ofInt 25)], [Cell.num (Frac.ofInt 25)]] : List (List Cell)).length =
      ([Cell.str "yes", Cell.str "no"] : List Cell).length ∧
    ([Cell.num (Frac.ofInt 25)] : List Cell).length =
      (["age", "cls"] : List String).length - 1 := by
  have h := C5_shape_amended
    (show preprocessing [["age", "cls"], ["25", "yes"], ["", "no"]] [] [] [] [] [] =
      PResult.ok [[Cell.num (Frac.ofInt 25)], [Cell.num (Frac.ofInt 25)]]
        [Cell.str "yes", Cell.str "no"] ["age", "cls"] by decide)
  exact ⟨h.1, h.2 (by decide) [Cell.num (Frac.ofInt 25)] (by simp)⟩

/-- C8: the strip step maps every cell of every object-dtype column
through the fold of literal substring removal over the chars list, leaves
every other column untouched and never changes the row count; removal is
literal (replaceStr), so a pattern containing the regex metacharacter dot
removes only its exact occurrences and never acts as a wildcard. -/
theorem C8_literal_strip :
    (∀ df chars, (stripAll df chars).nrow = df.nrow ∧
      (stripAll df chars).cols = df.cols.map (fun col =>
        if col.ctype == ColType.cobj then
          { col with data := col.data.map (fun x =>
              chars.foldl (fun y c => stripCell c y) x) }
        else col)) ∧
    (∀ s c, stripCell c (Cell.str s) = Cell.str (replaceStr s c)) ∧
    (∀ c, stripCell c Cell.na = Cell.na) ∧
    replaceStr ("axc") ("a.c") = ("axc") ∧
    replaceStr ("xa.cy") ("a.c") = ("xy") :=
  ⟨fun df chars => ⟨stripAll_nrow df chars, stripAll_cols chars df⟩,
   fun s c => rfl, fun c => rfl, by decide, by decide⟩

/-- C1: with an undetected header and no header argument, preprocessing
returns the documented error string and never a cleaned tuple; with an
undetected header and a non-empty header argument whose assignment
succeeds, the pipeline proceeds on the frame relabeled to exactly that
header; with a detected header the loaded names are kept and the header
argument is ignored. -/
theorem C1_header_establishment (f : List (List String)) (mv irr ch cat : List String) :
    (check_header (read_csv f mv) = false →
      preprocessing f mv irr ch cat [] =
        PResult.errMsg ("Error: the dataset has no header, please enter the columns names") ∧
      ∀ d l n, preprocessing f mv irr ch cat [] ≠ PResult.ok d l n) ∧
    (∀ hdr df2, check_header (read_csv f mv) = false → hdr ≠ [] →
      setColumns (read_csv f mv) hdr = Except.ok df2 →
      preprocessing f mv irr ch cat hdr = pipelineRest df2 irr ch cat ∧
      df2.cols.map (fun c => c.name) = hdr) ∧
    (∀ hdr, check_header (read_csv f mv) = true →
      preprocessing f mv irr ch cat hdr = pipelineRest (read_csv f mv) irr ch cat) := by
  refine ⟨?_, ?_, ?_⟩
  · intro hfalse
    have heq : preprocessing f mv irr ch cat [] =
        PResult.errMsg ("Error: the dataset has no header, please enter the columns names") := by
      unfold preprocessing
      dsimp only
      rw [hfalse]
      simp
    exact ⟨heq, fun d l n hcon => by rw [heq] at hcon; cases hcon⟩
  · intro hdr df2 hfalse hne hset
    constructor
    · unfold preprocessing
      dsimp only
      rw [hfalse]
      simp only [Bool.false_eq_true, if_false]
      rw [if_pos (fun hc => hne (List.length_eq_zero.mp hc)), hset]
    · have hlen : hdr.length = (read_csv f mv).cols.length := by
        by_contra hcon
        unfold setColumns at hset
        rw [if_neg hcon] at hset
        cases hset
      obtain ⟨_, hcols⟩ := setColumns_ok hset
      rw [hcols, List.map_map]
      have hcomp : ((fun c : Column => c.name) ∘ fun p : Column × String =>
          { p.1 with name := p.2 }) = Prod.snd := rfl
      rw [hcomp]
      exact List.map_snd_zip _ _ (le_of_eq hlen)
  · intro hdr htrue
    unfold preprocessing
    dsimp only
    rw [htrue]
    simp

/-- Witness for C1: a headerless file without and with a supplied header,
and a headered file where the argument is ignored. -/
theorem C1_witness :
    preprocessing [["1", "2"], ["3", "4"]] [] [] [] [] [] =
      PResult.errMsg ("Error: the dataset has no header, please enter the columns names") ∧
    (preprocessing [["1", "2"], ["3", "4"]] [] [] [] [] ["x", "y"] =
      pipelineRest ⟨1, [⟨"x", ColType.cint, [Cell.num (Frac.ofInt 3)]⟩,
        ⟨"y", ColType.cint, [Cell.num (Frac.ofInt 4)]⟩]⟩ [] [] [] ∧
      (⟨1, [⟨"x", ColType.cint, [Cell.num (Frac.ofInt 3)]⟩,
        ⟨"y", ColType.cint, [Cell.num (Frac.ofInt 4)]⟩]⟩ : DF).cols.map (fun c => c.name) =
        ["x", "y"]) ∧
    preprocessing [["a", "b"], ["3", "4"]] [] [] [] [] ["x", "y"] =
      pipelineRest (read_csv [["a", "b"], ["3", "4"]] []) [] [] [] :=
  ⟨((C1_header_establishment [["1", "2"], ["3", "4"]] [] [] [] []).1 (by decide)).1,
   (C1_header_establishment [["1", "2"], ["3", "4"]] [] [] [] []).2.1 ["x", "y"] _
     (by decide) (by decide) (by rfl),
   (C1_header_establishment [["a", "b"], ["3", "4"]] [] [] [] []).2.2 ["x", "y"] (by decide)⟩

/-- C4: encoding a categorical column f holding k distinct values appends
its k indicator columns, each named with the prefix f, then drops every
column named f and the first indicator, leaving the other k - 1 indicators
appended to the surviving columns; stated under the proviso that the fresh
indicator names are mutually distinct and collide with no existing column. -/
theorem C4_dummy_encoding {df : DF} {f : String} {col : Column}
    (hfind : df.cols.find? (fun c => c.name == f) = some col)
    (hk : 1 ≤ (distinctVals col).length)
    (hnd : ((get_dummies col).map (fun c => c.name)).Nodup)
    (hcoll : ∀ c ∈ df.cols, ∀ dc ∈ get_dummies col, c.name ≠ dc.name) :
    encodeOne df f = Except.ok ⟨df.nrow,
      df.cols.filter (fun c => c.name != f) ++ (get_dummies col).tail⟩ ∧
    (get_dummies col).length = (distinctVals col).length ∧
    (get_dummies col).tail.length = (distinctVals col).length - 1 ∧
    (∀ c ∈ df.cols.filter (fun c => c.name != f) ++ (get_dummies col).tail, c.name ≠ f) ∧
    (∀ dc ∈ get_dummies col, ∃ v ∈ distinctVals col,
      dc.name = dummyName col.name col.ctype v ∧
      dc.data = col.data.map (fun x =>
        if x == v then Cell.num (Frac.ofInt 1) else Cell.num (Frac.ofInt 0))) := by
  have hlen_dum : (get_dummies col).length = (distinctVals col).length := by
    simp [get_dummies]
  obtain ⟨d0, ds, hd⟩ : ∃ d0 ds, get_dummies col = d0 :: ds := by
    cases hg : get_dummies col with
    | nil =>
      rw [hg] at hlen_dum
      simp at hlen_dum
      omega
    | cons a b => exact ⟨a, b, rfl⟩
  have hname_f : col.name = f := by
    have := List.find?_some hfind
    simpa using this
  have hdum_shape : ∀ dc ∈ get_dummies col, ∃ v ∈ distinctVals col,
      dc.name = dummyName col.name col.ctype v ∧
      dc.data = col.data.map (fun x =>
        if x == v then Cell.num (Frac.ofInt 1) else Cell.num (Frac.ofInt 0)) := by
    intro dc hdc
    simp only [get_dummies, List.mem_map] at hdc
    obtain ⟨v, hv, hEq⟩ := hdc
    exact ⟨v, hv, by rw [← hEq], by rw [← hEq]⟩
  have hdum_ne_f : ∀ dc ∈ get_dummies col, dc.name ≠ f := by
    intro dc hdc
    obtain ⟨v, _, hn, _⟩ := hdum_shape dc hdc
    rw [hn, ← hname_f]
    exact dummyName_ne_pfx col.name col.ctype v
  have henc : encodeOne df f = Except.ok ⟨df.nrow,
      ((df.cols ++ d0 :: ds).filter (fun c => c.name != f)).filter
        (fun c => c.name != d0.name)⟩ := by
    unfold encodeOne
    rw [hfind]
    dsimp only
    rw [hd]
  have hfilter1 : (d0 :: ds).filter (fun c => c.name != f) = d0 :: ds := by
    rw [List.filter_eq_self]
    intro c hc
    simpa using hdum_ne_f c (by rw [hd]; exact hc)
  have hfilter2 : (df.cols.filter (fun c => c.name != f)).filter
      (fun c => c.name != d0.name) = df.cols.filter (fun c => c.name != f) := by
    rw [List.filter_eq_self]
    intro c hc
    simpa using hcoll c (List.mem_of_mem_filter hc) d0
      (by rw [hd]; exact List.mem_cons_self _ _)
  have hnd' : d0.name ∉ ds.map (fun c => c.name) := by
    rw [hd, List.map_cons, List.nodup_cons] at hnd
    exact hnd.1
  have hfilter3 : (d0 :: ds).filter (fun c => c.name != d0.name) = ds := by
    rw [List.filter_cons]
    have hself : (d0.name != d0.name) = false := by simp
    rw [hself]
    simp only [Bool.false_eq_true, if_false]
    rw [List.filter_eq_self]
    intro c hc
    simp only [bne_iff_ne, ne_eq]
    intro hcon
    exact hnd' (hcon ▸ List.mem_map_of_mem (fun c => c.name) hc)
  have hcols : ((df.cols ++ d0 :: ds).filter (fun c => c.name != f)).filter
      (fun c => c.name != d0.name) = df.cols.filter (fun c => c.name != f) ++ ds := by
    rw [List.filter_append, hfilter1, List.filter_append, hfilter2, hfilter3]
  refine ⟨?_, hlen_dum, ?_, ?_, hdum_shape⟩
  · rw [henc, hcols, hd, List.tail_cons]
  · rw [hd] at hlen_dum ⊢
    simp only [List.tail_cons, List.length_cons] at hlen_dum ⊢
    omega
  · intro c hc
    rcases List.mem_append.mp hc with h1 | h1
    · have := List.of_mem_filter h1
      simpa using this
    · exact hdum_ne_f c (List.mem_of_mem_tail h1)

/-- Witness for C4 on a concrete frame with one binary categorical column. -/
theorem C4_witness :
    encodeOne ⟨2, [⟨"x", ColType.cobj, [Cell.str "u", Cell.str "v"]⟩,
        ⟨"y", ColType.cint, [Cell.num (Frac.ofInt 1), Cell.num (Frac.ofInt 2)]⟩]⟩ ("x") =
      Except.ok ⟨2, ([⟨"x", ColType.cobj, [Cell.str "u", Cell.str "v"]⟩,
        ⟨"y", ColType.cint, [Cell.num (Frac.ofInt 1), Cell.num (Frac.ofInt 2)]⟩] :
          List Column).filter (fun c => c.name != ("x")) ++
        (get_dummies ⟨"x", ColType.cobj, [Cell.str "u", Cell.str "v"]⟩).tail⟩ :=
  (C4_dummy_encoding (by decide) (by decide) (by decide) (by decide)).1

/-- C6: each reducer returns a matrix with one row per input row and
exactly nc entries per row, the label vector unchanged, and the names
feature_1 .. feature_nc in order. -/
theorem C6_reducers (dl : DataList) (nc : Nat) :
    ((pca dl nc).data.length = dl.data.length ∧
     (∀ row ∈ (pca dl nc).data, row.length = nc) ∧
     (pca dl nc).label = dl.label ∧
     (pca dl nc).names.length = nc ∧
     ∀ i, i < nc → (pca dl nc).names.getD i ("") = ("feature_") ++ toString (i + 1)) ∧
    ((tsne dl nc).data.length = dl.data.length ∧
     (∀ row ∈ (tsne dl nc).data, row.length = nc) ∧
     (tsne dl nc).label = dl.label ∧
     (tsne dl nc).names.length = nc ∧
     ∀ i, i < nc → (tsne dl nc).names.getD i ("") = ("feature_") ++ toString (i + 1)) := by
  have hnames : ∀ i, i < nc →
      ((List.range' 1 nc).map (fun j => ("feature_") ++ toString j)).getD i ("") =
        ("feature_") ++ toString (i + 1) := by
    intro i hi
    have hlen : i < ((List.range' 1 nc).map (fun j => ("feature_") ++ toString j)).length := by
      simpa using hi
    rw [List.getD_eq_getElem _ _ hlen, List.getElem_map, List.getElem_range']
    have h1 : 1 + 1 * i = i + 1 := by omega
    rw [h1]
  refine ⟨⟨?_, ?_, rfl, ?_, hnames⟩, ?_, ?_, rfl, ?_, hnames⟩
  · simp [pca, fitTransformPCA]
  · intro row hrow
    simp only [pca, fitTransformPCA, List.mem_map] at hrow
    obtain ⟨r0, _, hEq⟩ := hrow
    rw [← hEq]
    simp
  · simp [pca]
  · simp [tsne, fitTransformTSNE]
  · intro row hrow
    simp only [tsne, fitTransformTSNE, List.mem_map] at hrow
    obtain ⟨r0, _, hEq⟩ := hrow
    rw [← hEq, List.length_map, List.length_range]
  · simp [tsne]

/-- Witness for C6 at a one-row cleaned tuple reduced to two dimensions. -/
theorem C6_witness :
    (pca ⟨[[Cell.num (Frac.ofInt 1), Cell.num (Frac.ofInt 2), Cell.num (Frac.ofInt 3)]],
      [Cell.str "y"], ["a", "b", "c", "lbl"]⟩ 2).names.getD 1 ("") =
      ("feature_") ++ toString 2 ∧
    (tsne ⟨[[Cell.num (Frac.ofInt 1), Cell.num (Frac.ofInt 2), Cell.num (Frac.ofInt 3)]],
      [Cell.str "y"], ["a", "b", "c", "lbl"]⟩ 2).data.length = 1 :=
  ⟨(C6_reducers _ 2).1.2.2.2.2 1 (by decide), (C6_reducers _ 2).2.1⟩

/-- C9: when the loaded column labels are not a header and a non-empty
header is supplied, the first file row has been consumed as labels and is
then discarded by the relabeling: a cleaned tuple has one row fewer than
the file, and the result depends only on the remaining rows, never on the
consumed first row. -/
theorem C9_first_row_consumed {r1 : List String} {body : List (List String)}
    {mv irr ch cat hdr : List String}
    (hch : check_header (read_csv (r1 :: body) mv) = false) (hh : hdr ≠ []) :
    (∀ d l n, preprocessing (r1 :: body) mv irr ch cat hdr = PResult.ok d l n →
      d.length = (r1 :: body).length - 1 ∧ l.length = (r1 :: body).length - 1) ∧
    ∀ r2 : List String, r2.length = r1.length →
      check_header (read_csv (r2 :: body) mv) = false →
      preprocessing (r1 :: body) mv irr ch cat hdr =
        preprocessing (r2 :: body) mv irr ch cat hdr := by
  constructor
  · intro d l n h
    obtain ⟨h1, h2, _, _⟩ := preprocessing_ok_shape h
    have hn : (read_csv (r1 :: body) mv).nrow = body.length := rfl
    constructor
    · rw [h1, hn]
      simp
    · rw [h2, hn]
      simp
  · intro r2 hlen hch2
    exact preprocessing_first_row_irrelevant hlen.symm hch hch2 hh

/-- Witness for C9: a three-row headerless file with a supplied header has
a two-row cleaned tuple, and replacing the consumed first row leaves the
result unchanged. -/
theorem C9_witness :
    (([[Cell.num (Frac.ofInt 3)], [Cell.num (Frac.ofInt 5)]] : List (List Cell)).length =
      ([["1", "2"], ["3", "4"], ["5", "6"]] : List (List String)).length - 1 ∧
     ([Cell.num (Frac.ofInt 4), Cell.num (Frac.ofInt 6)] : List Cell).length =
      ([["1", "2"], ["3", "4"], ["5", "6"]] : List (List String)).length - 1) ∧
    preprocessing [["1", "2"], ["3", "4"], ["5", "6"]] [] [] [] [] ["x", "y"] =
      preprocessing [["9", "8"], ["3", "4"], ["5", "6"]] [] [] [] [] ["x", "y"] := by
  have hC := @C9_first_row_consumed ["1", "2"] [["3", "4"], ["5", "6"]] [] [] [] [] ["x", "y"]
    (by decide) (by decide)
  exact ⟨hC.1 [[Cell.num (Frac.ofInt 3)], [Cell.num (Frac.ofInt 5)]]
    [Cell.num (Frac.ofInt 4), Cell.num (Frac.ofInt 6)] ["x", "y"] (by decide),
    hC.2 ["9", "8"] (by decide) (by decide)⟩

end Preprocessing
